import Mathlib

/-!
Verification of the lavaflow Lavalink client core.

This file gives a shallow embedding, in Lean 4, of the load-balancing,
connection-lifecycle, queue and autoplay logic of the lavaflow library,
and proves the specified properties about it.

Numeric values (JS `number`) are modelled as rationals `ℚ`; the JS value
`Infinity` that `Node.getPenalty` can return is modelled as `⊤` in
`WithTop ℚ`.  Fallible operations return `Option`/`Except`.
-/

namespace Lavaflow

/-! ## Data model: Node (src/nodes/Node.ts) -/

/-- Connection state enum `NodeState` of `Node.ts`. -/
inductive NodeState where
  | DISCONNECTED
  | CONNECTING
  | CONNECTED
  | RECONNECTING
deriving DecidableEq, Repr

/-- The `memory` record of `NodeStats` (types/lavalink.ts). -/
structure MemoryStats where
  free : ℚ
  used : ℚ
  allocated : ℚ
  reservable : ℚ
deriving DecidableEq, Repr

/-- The `cpu` record of `NodeStats` (types/lavalink.ts). -/
structure CpuStats where
  cores : ℚ
  systemLoad : ℚ
  lavalinkLoad : ℚ
deriving DecidableEq, Repr

/-- The `frameStats` record of `NodeStats` (types/lavalink.ts); the whole
record is nullable in the source, modelled by `Option FrameStats` below. -/
structure FrameStats where
  sent : ℚ
  nulled : ℚ
  deficit : ℚ
deriving DecidableEq, Repr

/-- `NodeStats` (types/lavalink.ts). -/
structure NodeStats where
  players : ℚ
  playingPlayers : ℚ
  uptime : ℚ
  memory : MemoryStats
  cpu : CpuStats
  frameStats : Option FrameStats
deriving DecidableEq, Repr

/-- The subset of `NodeOptions` (types/lavalink.ts) consumed by the logic
verified here: identity, optional region tag and reconnection settings. -/
structure NodeOptions where
  name : String
  host : String
  port : Nat
  password : String
  secure : Bool
  region : Option String
  maxReconnectAttempts : Nat
  reconnectDelay : ℚ
deriving DecidableEq, Repr

/-- The observable state of a `Node` (src/nodes/Node.ts): its options, the
connection-state enum, whether the underlying WebSocket handle is open
(`ws.readyState === WebSocket.OPEN`), the last statistics push (`stats` is
`null` until the first `stats` event), and the backend session id. -/
structure Node where
  options : NodeOptions
  state : NodeState
  wsOpen : Bool
  stats : Option NodeStats
  sessionId : Option String
deriving DecidableEq, Repr

/-- `Node.isConnected`: `state === CONNECTED && ws?.readyState === OPEN`. -/
def Node.isConnected (n : Node) : Bool :=
  n.state = NodeState.CONNECTED && n.wsOpen

/-- The finite accumulation of `Node.getPenalty`, translated clause by
clause from the source body that runs once the guard has passed: player
counts, CPU normalised by cores, memory pressure above the 0.8 ratio,
frame deficit and nulled frames. -/
def penaltyBody (s : NodeStats) : ℚ :=
  let penalty0 : ℚ := 0
  let penalty1 := penalty0 + s.players
  let penalty2 := penalty1 + s.playingPlayers * 2
  let penalty3 :=
    if s.cpu.cores > 0 then penalty2 + s.cpu.lavalinkLoad / s.cpu.cores * 100
    else penalty2
  let penalty4 :=
    if s.memory.used / s.memory.allocated > 4/5 then
      penalty3 + (s.memory.used / s.memory.allocated - 4/5) * 500
    else penalty3
  match s.frameStats with
  | some f => penalty4 + f.deficit * 2 + f.nulled
  | none => penalty4

/-- `Node.getPenalty`: `Infinity` (here `⊤`) unless connected with stats,
otherwise the accumulated weighted sum `penaltyBody`. -/
def Node.getPenalty (n : Node) : WithTop ℚ :=
  match n.stats with
  | none => ⊤
  | some s =>
    if !n.isConnected then ⊤
    else (penaltyBody s : WithTop ℚ)

/-- Return type of `Node.getPenaltyDetails`. -/
structure PenaltyDetails where
  total : WithTop ℚ
  players : ℚ
  playingPlayers : ℚ
  cpu : ℚ
  memory : ℚ
  frames : ℚ
deriving DecidableEq, Repr

/-- `Node.getPenaltyDetails`: the detailed penalty breakdown, translated
from the source; components are computed independently and `total` is
their sum (or `⊤` with zero components when disconnected or stats-less). -/
def Node.getPenaltyDetails (n : Node) : PenaltyDetails :=
  match n.stats with
  | none =>
      { total := ⊤, players := 0, playingPlayers := 0, cpu := 0, memory := 0, frames := 0 }
  | some s =>
    if !n.isConnected then
      { total := ⊤, players := 0, playingPlayers := 0, cpu := 0, memory := 0, frames := 0 }
    else
      let playersPenalty := s.players
      let playingPlayersPenalty := s.playingPlayers * 2
      let cpuPenalty :=
        if s.cpu.cores > 0 then s.cpu.lavalinkLoad / s.cpu.cores * 100 else 0
      let memoryPenalty :=
        if s.memory.used / s.memory.allocated > 4/5 then
          (s.memory.used / s.memory.allocated - 4/5) * 500
        else 0
      let framesPenalty :=
        match s.frameStats with
        | some f => f.deficit * 2 + f.nulled
        | none => 0
      let total := playersPenalty + playingPlayersPenalty + cpuPenalty + memoryPenalty + framesPenalty
      { total := (total : WithTop ℚ)
        players := playersPenalty
        playingPlayers := playingPlayersPenalty
        cpu := cpuPenalty
        memory := memoryPenalty
        frames := framesPenalty }

/-! ## NodeManager: selection and registry (src/nodes/NodeManager.ts) -/

/-- `NodeManager.matchesRegion`'s `normalize`: lower-case the region token
and strip the `-`/`_` separators (the JS `replace(/[-_]/g, '')`). -/
def normalizeRegion (s : String) : List Char :=
  (s.data.map Char.toLower).filter (fun c => !(c = '-' || c = '_'))

/-- Substring containment on character lists, the semantics of JS
`String.prototype.includes`. -/
def containsSub (l sub : List Char) : Bool :=
  match l with
  | [] => sub.isEmpty
  | _ :: t => sub.isPrefixOf l || containsSub t sub

/-- `NodeManager.matchesRegion`: normalized substring match in either
direction. -/
def matchesRegion (nodeRegion voiceRegion : String) : Bool :=
  containsSub (normalizeRegion nodeRegion) (normalizeRegion voiceRegion) ||
    containsSub (normalizeRegion voiceRegion) (normalizeRegion nodeRegion)

/-- `NodeManager.getConnectedNodes`: the connected subset, in registration
(insertion) order. -/
def connectedNodes (ns : List Node) : List Node :=
  ns.filter (fun n => n.isConnected)

/-- The guard `node.options.region && this.matchesRegion(node.options.region,
voiceRegion)` used by `getBestNode`'s regional filter. -/
def nodeRegionMatches (n : Node) (voiceRegion : String) : Bool :=
  match n.options.region with
  | some r => matchesRegion r voiceRegion
  | none => false

/-- The regional candidate subset computed by `getBestNode`. -/
def regionalNodes (ns : List Node) (voiceRegion : String) : List Node :=
  (connectedNodes ns).filter (fun n => nodeRegionMatches n voiceRegion)

/-- The scan loop of `NodeManager.selectBestFromNodes`: running best node
and its penalty, updated whenever a strictly smaller penalty is found. -/
def selectLoop (penaltyFn : Node → WithTop ℚ) (best : Node) (lowest : WithTop ℚ) :
    List Node → Node
  | [] => best
  | n :: rest =>
    if penaltyFn n < lowest then selectLoop penaltyFn n (penaltyFn n) rest
    else selectLoop penaltyFn best lowest rest

/-- `NodeManager.selectBestFromNodes`: linear scan for the minimum penalty
starting from the first node (`none` models the out-of-bounds access the
source would make on an empty list).  `penaltyFn` is the resolved penalty
function (the built-in `Node.getPenalty` unless a custom calculator is
installed). -/
def selectBestFromNodes (penaltyFn : Node → WithTop ℚ) : List Node → Option Node
  | [] => none
  | b :: rest => some (selectLoop penaltyFn b (penaltyFn b) rest)

/-- `NodeManager.getBestNode` with the built-in penalty: throw (`none`) when
no node is connected; otherwise narrow to fuzzily region-matching connected
nodes when a region hint is given, falling back to the full connected set
when that subset is empty. -/
def getBestNode (ns : List Node) (voiceRegion : Option String) : Option Node :=
  let connected := connectedNodes ns
  if connected.length = 0 then none
  else
    match voiceRegion with
    | some vr =>
      let regional := regionalNodes ns vr
      if regional.length > 0 then selectBestFromNodes Node.getPenalty regional
      else selectBestFromNodes Node.getPenalty connected
    | none => selectBestFromNodes Node.getPenalty connected

/-- Typed errors thrown by `NodeManager.addNode`. -/
inductive AddNodeError where
  | duplicateName
  | notInitialized
  | connectFailed
deriving DecidableEq, Repr

/-- The registry state of the `NodeManager` singleton: the `Map` of nodes
(a JS `Map` iterates in insertion order, modelled as an association list)
and the client id set by `init`. -/
structure ManagerState where
  nodes : List (String × Node)
  clientId : Option String
deriving DecidableEq, Repr

/-- `this.nodes.has(name)`. -/
def hasNode (st : ManagerState) (name : String) : Bool :=
  st.nodes.any (fun p => p.1 = name)

/-- `this.nodes.delete(name)`: remove the (unique) entry with that key. -/
def mapDelete (name : String) : List (String × Node) → List (String × Node)
  | [] => []
  | p :: t => if p.1 = name then t else p :: mapDelete name t

/-- `new Node(options)`: a freshly constructed node is DISCONNECTED with no
socket, no stats and no session. -/
def mkNode (options : NodeOptions) : Node :=
  { options := options
    state := NodeState.DISCONNECTED
    wsOpen := false
    stats := none
    sessionId := none }

/-- `NodeManager.addNode`: reject duplicate names, require `init`, insert
the node, then connect; on connection failure delete the half-added entry
and rethrow.  The nondeterministic outcome of `node.connect(clientId)` is
the `connectOk` parameter; the returned state is the registry after the
call. -/
def addNode (st : ManagerState) (options : NodeOptions) (connectOk : Bool) :
    ManagerState × Except AddNodeError Node :=
  if hasNode st options.name then (st, Except.error AddNodeError.duplicateName)
  else
    match st.clientId with
    | none => (st, Except.error AddNodeError.notInitialized)
    | some _ =>
      let node := mkNode options
      let st1 : ManagerState := { st with nodes := st.nodes ++ [(options.name, node)] }
      if connectOk then (st1, Except.ok node)
      else ({ st1 with nodes := mapDelete options.name st1.nodes },
            Except.error AddNodeError.connectFailed)

/-! ## Reconnection backoff (src/utils/backoff, used by Node.ts) -/

/-- Modelled from the spec: the `ExponentialBackoff` utility
(`src/utils/backoff`) is not in the available source tree (only its
construction and use in `Node.ts` are); per the spec the delay is
`base delay × 2^attempt`, capped at a maximum delay, with ±20% random
jitter, and `reset` returns the counter to the start.  The attempt
counter advances with `next`. -/
structure ExponentialBackoff where
  baseDelay : ℚ
  maxDelay : ℚ
  maxAttempts : Nat
  attempt : Nat
deriving DecidableEq, Repr

/-- The capped (un-jittered) delay for the current attempt. -/
def ExponentialBackoff.rawDelay (b : ExponentialBackoff) : ℚ :=
  min (b.baseDelay * 2 ^ b.attempt) b.maxDelay

/-- The delay after applying a jitter factor `j` (±20% jitter means
`4/5 ≤ j ≤ 6/5`). -/
def ExponentialBackoff.delayWithJitter (b : ExponentialBackoff) (j : ℚ) : ℚ :=
  b.rawDelay * j

/-- Advance to the next attempt. -/
def ExponentialBackoff.next (b : ExponentialBackoff) : ExponentialBackoff :=
  { b with attempt := b.attempt + 1 }

/-- Reset the counter (called from `Node.onOpen` on successful connect). -/
def ExponentialBackoff.reset (b : ExponentialBackoff) : ExponentialBackoff :=
  { b with attempt := 0 }

/-- `hasReachedMaxAttempts`, consulted by `Node.scheduleReconnect`. -/
def ExponentialBackoff.hasReachedMaxAttempts (b : ExponentialBackoff) : Bool :=
  b.attempt ≥ b.maxAttempts

/-- The backoff configured by the `Node` constructor:
`baseDelay = options.reconnectDelay`, `maxDelay = 60000`,
`maxAttempts = options.maxReconnectAttempts`, jitter `0.2`. -/
def mkNodeBackoff (options : NodeOptions) : ExponentialBackoff :=
  { baseDelay := options.reconnectDelay
    maxDelay := 60000
    maxAttempts := options.maxReconnectAttempts
    attempt := 0 }

/-! ## Node socket lifecycle and heartbeat (src/nodes/Node.ts) -/

/-- Heartbeat check period of `Node.startHeartbeat` (`setInterval`, ms). -/
def heartbeatIntervalMs : Nat := 15000

/-- Liveness timeout of `Node.startHeartbeat` (ms): the connection is
considered dead when no player update arrived for longer than this. -/
def heartbeatTimeoutMs : Nat := 60000

/-- The lifecycle-relevant state of one `Node`: connection state, socket
handle, liveness timestamp (`lastHeartbeat`), whether the heartbeat
interval timer is running, backoff counter and reconnect bookkeeping.
Timestamps are milliseconds as `Nat`. -/
structure WsNode where
  state : NodeState
  wsOpen : Bool
  lastHeartbeat : Nat
  heartbeatActive : Bool
  maxReconnectAttempts : Nat
  backoffAttempt : Nat
  reconnectScheduled : Bool
  closeCode : Option Nat
deriving DecidableEq, Repr

/-- `Node.onOpen`: mark CONNECTED, reset the backoff, refresh the liveness
timestamp and start the heartbeat monitor. -/
def onOpenStep (n : WsNode) (now : Nat) : WsNode :=
  { n with state := NodeState.CONNECTED
           wsOpen := true
           backoffAttempt := 0
           lastHeartbeat := now
           heartbeatActive := true }

/-- `Node.scheduleReconnect`: abandon (only an error event) once the
backoff counter has reached the maximum, else move to RECONNECTING, draw
the next backoff delay and arm the reconnect timer. -/
def scheduleReconnectStep (n : WsNode) : WsNode :=
  if n.backoffAttempt ≥ n.maxReconnectAttempts then n
  else { n with state := NodeState.RECONNECTING
                reconnectScheduled := true
                backoffAttempt := n.backoffAttempt + 1 }

/-- `Node.onClose`: mark DISCONNECTED, stop the heartbeat timer, and for a
non-normal close code (≠ 1000) with reconnection enabled, schedule a
reconnect. -/
def onCloseStep (n : WsNode) (code : Nat) : WsNode :=
  let n1 := { n with state := NodeState.DISCONNECTED
                     wsOpen := false
                     heartbeatActive := false
                     closeCode := some code }
  if code ≠ 1000 ∧ n.maxReconnectAttempts ≠ 0 then scheduleReconnectStep n1
  else n1

/-- `Node.handlePlayerUpdateEvent`: every player-update message refreshes
the liveness timestamp. -/
def playerUpdateStep (n : WsNode) (now : Nat) : WsNode :=
  { n with lastHeartbeat := now }

/-- One firing of the heartbeat interval (`Node.startHeartbeat`): when the
time since the last player update exceeds `heartbeatTimeoutMs`, the socket
is closed with code 4000, which triggers the close handler. -/
def heartbeatTickStep (n : WsNode) (now : Nat) : WsNode :=
  if n.heartbeatActive ∧ now - n.lastHeartbeat > heartbeatTimeoutMs then
    onCloseStep n 4000
  else n

/-! ## Tracks and autoplay (src/utils/autoplay.ts) -/

/-- The subset of `TrackInfo` (types/lavalink.ts) consumed by the verified
logic.  `identifier` and `uri` are `Option String` so that JS falsiness
(empty string / `null`) is `none`. -/
structure TrackInfo where
  identifier : Option String
  uri : Option String
  title : String
  author : String
  sourceName : String
deriving DecidableEq, Repr

/-- A `Track` (types/lavalink.ts): opaque encoded blob plus metadata. -/
structure Track where
  encoded : String
  info : TrackInfo
deriving DecidableEq, Repr

/-- The id used by autoplay for de-duplication:
`track.info.identifier || track.info.uri`. -/
def trackIdOf (t : Track) : Option String :=
  match t.info.identifier with
  | some id => some id
  | none => t.info.uri

/-- A classified `LoadResult` (types/lavalink.ts): the `loadType`
discriminated union. -/
inductive LoadResult where
  | track (t : Track)
  | playlist (tracks : List Track)
  | search (tracks : List Track)
  | empty
  | error
deriving DecidableEq, Repr

/-- The candidate set `handleYouTube` extracts from a load result:
playlist tracks, the search list, or the single track. -/
def resultTracks : LoadResult → List Track
  | LoadResult.track t => [t]
  | LoadResult.playlist ts => ts
  | LoadResult.search ts => ts
  | LoadResult.empty => []
  | LoadResult.error => []

/-- `AutoPlay.maxHistorySize`. -/
def maxHistorySize : Nat := 50

/-- The candidate filter of each autoplay strategy: keep a track when it
has a truthy id that is not in the de-duplication set. -/
def filterPlayed (played : List String) (ts : List Track) : List Track :=
  ts.filter (fun t =>
    match trackIdOf t with
    | some id => !(played.contains id)
    | none => false)

/-- The de-duplication update in `AutoPlay.execute`: add the identifier to
the set (a JS `Set` keeps insertion order and ignores re-adds), then if the
size exceeds `maxHistorySize` delete the first (oldest) member. -/
def addIdentifier (played : List String) (id : String) : List String :=
  let s := if played.contains id then played else played ++ [id]
  if s.length > maxHistorySize then s.tail else s

/-- The identifier bookkeeping of one `AutoPlay.execute` call: the ended
track's `identifier || uri` is recorded when truthy. -/
def executeDedup (played : List String) (identifier : Option String) : List String :=
  match identifier with
  | none => played
  | some id => addIdentifier played id

/-- The body of `AutoPlay.handleYouTube` after the search call, as a
function of the search result: fail on `error`/`empty`, extract the
candidate list, filter out already-played tracks, fall back to the
unfiltered list when the filter empties it, and pick the candidate at the
random index (`pick` stands for the random draw; JS
`Math.floor(Math.random()*len)` is `pick % len`).  Returns the success
flag and the chosen track. -/
def handleYouTube (played : List String) (prevIdentifier : Option String)
    (result : LoadResult) (pick : Nat) : Bool × Option Track :=
  match prevIdentifier with
  | none => (false, none)
  | some _ =>
    match result with
    | LoadResult.error => (false, none)
    | LoadResult.empty => (false, none)
    | r =>
      let tracks := resultTracks r
      let availableTracks := filterPlayed played tracks
      let availableTracks2 := if availableTracks.length = 0 then tracks else availableTracks
      if availableTracks2.length = 0 then (false, none)
      else (true, availableTracks2.get? (pick % availableTracks2.length))

/-- The `try`/`catch` wrapper of `AutoPlay.execute`: a strategy outcome
(`Except` models a thrown exception) is reported to the caller as a plain
boolean, `false` when the node is not connected or the strategy threw. -/
def executeAutoplay (nodeConnected : Bool) (strategyResult : Except String Bool) : Bool :=
  if !nodeConnected then false
  else
    match strategyResult with
    | Except.ok b => b
    | Except.error _ => false

/-! ## Player queue and loop semantics (Player source in MODERNIZATION.md) -/

/-- Player loop modes. -/
inductive LoopMode where
  | off
  | track
  | queue
deriving DecidableEq, Repr

/-- `TrackEndReason` (types/lavalink.ts). -/
inductive TrackEndReason where
  | finished
  | loadFailed
  | stopped
  | replaced
  | cleanup
deriving DecidableEq, Repr

/-- The queue-relevant state of a `Player`. -/
structure PlayerSt where
  track : Option Track
  queue : List Track
  history : List Track
  previousTracks : List Track
  loopMode : LoopMode
  autoPlay : Bool
  position : ℚ
deriving DecidableEq, Repr

/-- Push to a capped list: append, then `shift()` the oldest element once
the cap is exceeded (`history` cap 50, `previousTracks` cap 10). -/
def pushCapped (cap : Nat) (l : List Track) (t : Track) : List Track :=
  let l2 := l ++ [t]
  if l2.length > cap then l2.tail else l2

/-- `Player.handleTrackEnd(reason)`, translated from the Player source:
record the ended track into history and the previous-stack; on `finished`
with loop `track`, replay it; on `finished` with loop `queue`, append it to
the queue tail; clear the current track; on `finished` with a non-empty
queue, `play()` dequeues the head; else, on `finished` with autoplay
enabled, delegate to the autoplay engine (its outcome — the track it
enqueued and started, if any — is the `auto` parameter). -/
def handleTrackEnd (st : PlayerSt) (reason : TrackEndReason) (auto : Option Track) :
    PlayerSt :=
  let st0 :=
    match st.track with
    | some t => { st with history := pushCapped 50 st.history t
                          previousTracks := pushCapped 10 st.previousTracks t }
    | none => st
  let prev := st.track
  if reason = TrackEndReason.finished ∧ st0.loopMode = LoopMode.track ∧ prev.isSome then
    { st0 with track := prev }
  else
    let st1 :=
      if reason = TrackEndReason.finished ∧ st0.loopMode = LoopMode.queue then
        match prev with
        | some p => { st0 with queue := st0.queue ++ [p] }
        | none => st0
      else st0
    let st2 := { st1 with track := none, position := 0 }
    if reason = TrackEndReason.finished ∧ st2.queue.length > 0 then
      { st2 with track := st2.queue.head?, queue := st2.queue.tail }
    else
      if st2.autoPlay ∧ reason = TrackEndReason.finished ∧ st2.queue.length = 0
          ∧ prev.isSome then
        match auto with
        | some t => { st2 with track := some t }
        | none => st2
      else st2

/-! ## Concrete instances used to exercise the definitions -/

/-- Options for a demo node with a given name and region. -/
def demoOptions (name : String) (region : Option String) : NodeOptions :=
  { name := name, host := "localhost", port := 2333, password := "pass",
    secure := false, region := region, maxReconnectAttempts := 3,
    reconnectDelay := 5000 }

/-- A minimal stats snapshot whose penalty is `players + 2 × playing`
(no CPU load, low memory pressure, no frame stats). -/
def demoStats (players playing : ℚ) : NodeStats :=
  { players := players, playingPlayers := playing, uptime := 1000,
    memory := { free := 1, used := 0, allocated := 1, reservable := 1 },
    cpu := { cores := 1, systemLoad := 0, lavalinkLoad := 0 },
    frameStats := none }

/-- A connected node (open socket) with the given stats snapshot. -/
def connNode (name : String) (region : Option String) (stats : Option NodeStats) : Node :=
  { options := demoOptions name region, state := NodeState.CONNECTED,
    wsOpen := true, stats := stats, sessionId := some "session" }

/-- Connected node with penalty 5. -/
def nodeP5 : Node := connNode "five" none (some (demoStats 5 0))

/-- Connected node with penalty 2. -/
def nodeP2 : Node := connNode "two" none (some (demoStats 2 0))

/-- Connected node with penalty 8. -/
def nodeP8 : Node := connNode "eight" none (some (demoStats 8 0))

/-- Connected node that has not yet received a stats snapshot. -/
def nodeNoStatsA : Node := connNode "nostatsA" none none

/-- A second connected stats-less node. -/
def nodeNoStatsB : Node := connNode "nostatsB" none none

/-- A disconnected node. -/
def nodeDown : Node :=
  { options := demoOptions "down" none, state := NodeState.DISCONNECTED,
    wsOpen := false, stats := none, sessionId := none }

/-- A stats snapshot exercising every penalty component: 3 players,
1 playing, CPU load 1/2 on 2 cores, 90% memory use, 2 deficit and 1
nulled frame — total penalty 3 + 2 + 25 + 50 + 5 = 85. -/
def statsRich : NodeStats :=
  { players := 3, playingPlayers := 1, uptime := 1000,
    memory := { free := 1, used := 9, allocated := 10, reservable := 10 },
    cpu := { cores := 2, systemLoad := 1, lavalinkLoad := 1/2 },
    frameStats := some { sent := 100, nulled := 1, deficit := 2 } }

/-- A connected node carrying `statsRich`. -/
def nodeRich : Node := connNode "rich" (some "us-west") (some statsRich)

/-- Connected node in region `us-west`, penalty 1. -/
def nodeUSW : Node := connNode "usw" (some "us-west") (some (demoStats 1 0))

/-- Connected node in region `US_WEST`, penalty 0. -/
def nodeUSW2 : Node := connNode "usw2" (some "US_WEST") (some (demoStats 0 0))

/-- Connected node in region `eu-central`, penalty 0. -/
def nodeEU : Node := connNode "eu" (some "eu-central") (some (demoStats 0 0))

/-- An initialised manager registry already holding one node. -/
def mgrInit : ManagerState :=
  { nodes := [("down", nodeDown)], clientId := some "42" }

/-- A connected lifecycle state with heartbeat running and a fresh backoff. -/
def wsDemo : WsNode :=
  { state := NodeState.CONNECTED, wsOpen := true, lastHeartbeat := 0,
    heartbeatActive := true, maxReconnectAttempts := 3, backoffAttempt := 0,
    reconnectScheduled := false, closeCode := none }

/-- A demo track with the given identifier and title. -/
def mkTrack (id title : String) : Track :=
  { encoded := id,
    info := { identifier := some id, uri := some ("https://x/" ++ id),
              title := title, author := "artist", sourceName := "youtube" } }

/-- Demo track A. -/
def trackA : Track := mkTrack "A" "Track A"

/-- Demo track B. -/
def trackB : Track := mkTrack "B" "Track B"

/-- Demo track C. -/
def trackC : Track := mkTrack "C" "Track C"

/-- A player in queue-loop mode, currently playing A with B, C pending. -/
def stABC : PlayerSt :=
  { track := some trackA, queue := [trackB, trackC], history := [],
    previousTracks := [], loopMode := LoopMode.queue, autoPlay := false,
    position := 0 }

/-- A de-duplication set filled to its 50-entry capacity. -/
def fiftyIds : List String := List.replicate 50 "a"

/-! ## Helper lemmas -/

/-- The penalty is `⊤` (JS `Infinity`) exactly for a disconnected or
stats-less node. -/
lemma getPenalty_eq_top_iff (n : Node) :
    n.getPenalty = ⊤ ↔ (n.isConnected = false ∨ n.stats = none) := by
  rcases hs : n.stats with _ | s
  · simp [Node.getPenalty, hs]
  · by_cases hc : n.isConnected
    · simp [Node.getPenalty, hs, hc]
    · have hc' : n.isConnected = false := Bool.eq_false_iff.mpr hc
      simp [Node.getPenalty, hs, hc']

/-- Evaluation of the penalty body on the minimal demo stats. -/
lemma penaltyBody_demoStats (p q : ℚ) : penaltyBody (demoStats p q) = p + q * 2 := by
  simp only [penaltyBody, demoStats]
  norm_num

/-- Evaluation of the penalty of a connected demo node. -/
lemma getPenalty_demoNode (name : String) (region : Option String) (p q : ℚ) :
    (connNode name region (some (demoStats p q))).getPenalty =
      ((p + q * 2 : ℚ) : WithTop ℚ) := by
  simp [Node.getPenalty, connNode, Node.isConnected, penaltyBody_demoStats]

/-- Evaluation of the penalty of the rich demo node: 3 + 2 + 25 + 50 + 5. -/
lemma getPenalty_nodeRich : nodeRich.getPenalty = ((85 : ℚ) : WithTop ℚ) := by
  have hb : penaltyBody statsRich = 85 := by
    simp only [penaltyBody, statsRich]
    norm_num
  simp [Node.getPenalty, nodeRich, connNode, Node.isConnected, hb]

/-- The scan loop returns a member of the candidate list whose penalty is
minimal, and every candidate encountered before it has a strictly larger
penalty (so ties are resolved in favour of the first-encountered node). -/
lemma selectLoop_spec (pf : Node → WithTop ℚ) :
    ∀ (rest : List Node) (best : Node),
      selectLoop pf best (pf best) rest ∈ best :: rest ∧
      (∀ n ∈ best :: rest, pf (selectLoop pf best (pf best) rest) ≤ pf n) ∧
      ∃ l₁ l₂, best :: rest = l₁ ++ selectLoop pf best (pf best) rest :: l₂ ∧
        ∀ n ∈ l₁, pf (selectLoop pf best (pf best) rest) < pf n := by
  intro rest
  induction rest with
  | nil =>
    intro best
    simp only [selectLoop]
    refine ⟨List.mem_cons_self best [], ?_, [], [], rfl, by simp⟩
    intro n hn
    rcases List.mem_singleton.mp hn with rfl
    exact le_refl _
  | cons m t ih =>
    intro best
    by_cases h : pf m < pf best
    · have hsel : selectLoop pf best (pf best) (m :: t) = selectLoop pf m (pf m) t := by
        simp [selectLoop, h]
      obtain ⟨hmem, hle, l₁, l₂, hdec, hlt⟩ := ih m
      rw [hsel]
      refine ⟨List.mem_cons_of_mem best hmem, ?_, best :: l₁, l₂, ?_, ?_⟩
      · intro n hn
        rcases List.mem_cons.mp hn with rfl | hn'
        · exact le_trans (hle m (List.mem_cons_self m t)) (le_of_lt h)
        · exact hle n hn'
      · rw [List.cons_append, ← hdec]
      · intro n hn
        rcases List.mem_cons.mp hn with rfl | hn'
        · exact lt_of_le_of_lt (hle m (List.mem_cons_self m t)) h
        · exact hlt n hn'
    · have hsel : selectLoop pf best (pf best) (m :: t) = selectLoop pf best (pf best) t := by
        simp [selectLoop, h]
      obtain ⟨hmem, hle, l₁, l₂, hdec, hlt⟩ := ih best
      rw [hsel]
      have hbm : pf best ≤ pf m := le_of_not_lt h
      have hrb : pf (selectLoop pf best (pf best) t) ≤ pf best :=
        hle best (List.mem_cons_self best t)
      refine ⟨?_, ?_, ?_⟩
      · rcases List.mem_cons.mp hmem with hrb' | hmem'
        · rw [hrb']; exact List.mem_cons_self best (m :: t)
        · exact List.mem_cons_of_mem best (List.mem_cons_of_mem m hmem')
      · intro n hn
        rcases List.mem_cons.mp hn with rfl | hn'
        · exact hrb
        · rcases List.mem_cons.mp hn' with rfl | hn''
          · exact le_trans hrb hbm
          · exact hle n (List.mem_cons_of_mem best hn'')
      · rcases l₁ with _ | ⟨a, l₁'⟩
        · simp only [List.nil_append] at hdec
          have hr : selectLoop pf best (pf best) t = best := (List.cons.inj hdec).1.symm
          refine ⟨[], m :: t, ?_, by simp⟩
          rw [List.nil_append, hr]
        · have ha : a = best := (List.cons.inj hdec).1.symm
          have ht : t = l₁' ++ selectLoop pf best (pf best) t :: l₂ :=
            (List.cons.inj hdec).2
          have hstrict : pf (selectLoop pf best (pf best) t) < pf best := by
            have hx := hlt a (List.mem_cons_self a l₁')
            rwa [ha] at hx
          refine ⟨best :: m :: l₁', l₂, ?_, ?_⟩
          · rw [List.cons_append, List.cons_append, ← ht]
          · intro n hn
            rcases List.mem_cons.mp hn with rfl | hn'
            · exact hstrict
            · rcases List.mem_cons.mp hn' with rfl | hn''
              · exact lt_of_lt_of_le hstrict hbm
              · refine hlt n ?_
                rw [ha]
                exact List.mem_cons_of_mem best hn''

/-- Specification of `selectBestFromNodes` on a successful scan. -/
lemma selectBest_spec (pf : Node → WithTop ℚ) (ns : List Node) (b : Node)
    (h : selectBestFromNodes pf ns = some b) :
    b ∈ ns ∧ (∀ n ∈ ns, pf b ≤ pf n) ∧
      ∃ l₁ l₂, ns = l₁ ++ b :: l₂ ∧ ∀ n ∈ l₁, pf b < pf n := by
  cases ns with
  | nil => cases h
  | cons hd t =>
    have hb : selectLoop pf hd (pf hd) t = b := Option.some.inj h
    obtain ⟨hmem, hle, l₁, l₂, hdec, hlt⟩ := selectLoop_spec pf t hd
    rw [hb] at hmem hle hdec hlt
    exact ⟨hmem, hle, l₁, l₂, hdec, hlt⟩

/-- A non-empty candidate list always yields a selection. -/
lemma selectBest_isSome (pf : Node → WithTop ℚ) (l : List Node) (h : l ≠ []) :
    ∃ b, selectBestFromNodes pf l = some b := by
  cases l with
  | nil => exact absurd rfl h
  | cons hd t => exact ⟨_, rfl⟩

/-- The regional subset is empty whenever the connected set is. -/
lemma regionalNodes_of_connected_nil (ns : List Node) (hint : String)
    (h : connectedNodes ns = []) : regionalNodes ns hint = [] := by
  simp [regionalNodes, h]

/-- Unfolding of `getBestNode` when a region hint is supplied. -/
lemma getBestNode_some_form (ns : List Node) (hint : String) :
    getBestNode ns (some hint) =
      (if (connectedNodes ns).length = 0 then none
       else if (regionalNodes ns hint).length > 0 then
         selectBestFromNodes Node.getPenalty (regionalNodes ns hint)
       else selectBestFromNodes Node.getPenalty (connectedNodes ns)) := rfl

/-- Region normalisation distributes over string append. -/
lemma normalizeRegion_append (a b : String) :
    normalizeRegion (a ++ b) = normalizeRegion a ++ normalizeRegion b := by
  simp [normalizeRegion, String.data_append, List.map_append, List.filter_append]

/-- Deleting a freshly appended key recovers the original registry. -/
lemma mapDelete_append_fresh (l : List (String × Node)) (name : String) (nd : Node)
    (h : ∀ p ∈ l, ¬(p.1 = name)) : mapDelete name (l ++ [(name, nd)]) = l := by
  induction l with
  | nil => simp [mapDelete]
  | cons p t ih =>
    have hp : ¬(p.1 = name) := h p (List.mem_cons_self p t)
    simp only [List.cons_append, mapDelete, if_neg hp]
    exact congrArg (List.cons p) (ih (fun q hq => h q (List.mem_cons_of_mem p hq)))

/-- A negative `has` check means no entry carries the name. -/
lemma hasNode_false (st : ManagerState) (name : String)
    (h : hasNode st name = false) : ∀ p ∈ st.nodes, ¬(p.1 = name) := by
  intro p hp
  simp only [hasNode, List.any_eq_false] at h
  have hb := h p hp
  simpa using hb

/-- Picking at the reduced random index always yields a member. -/
lemma pick_mem (l : List Track) (pick : Nat) (h : l ≠ []) :
    ∃ t, l.get? (pick % l.length) = some t ∧ t ∈ l := by
  have hlen : 0 < l.length := List.length_pos.mpr h
  have hmod : pick % l.length < l.length := Nat.mod_lt _ hlen
  exact ⟨l.get ⟨_, hmod⟩, List.get?_eq_get hmod, List.get_mem _ _ _⟩

/-- Length bound is preserved by one de-duplication insertion. -/
lemma addIdentifier_length_le (s : List String) (id : String) (h : s.length ≤ 50) :
    (addIdentifier s id).length ≤ 50 := by
  unfold addIdentifier maxHistorySize
  by_cases hc : s.contains id
  · rw [if_pos hc, if_neg (by omega)]
    exact h
  · rw [if_neg hc]
    by_cases h51 : (s ++ [id]).length > 50
    · rw [if_pos h51]
      simp only [List.length_tail, List.length_append, List.length_singleton]
      omega
    · rw [if_neg h51]
      omega

/-- Length bound is preserved by the per-execution dedup update. -/
lemma executeDedup_length_le (s : List String) (o : Option String)
    (h : s.length ≤ 50) : (executeDedup s o).length ≤ 50 := by
  cases o with
  | none => exact h
  | some id => exact addIdentifier_length_le s id h

/-- Length bound is preserved along any fold of dedup updates. -/
lemma foldl_executeDedup_le (ids : List (Option String)) :
    ∀ s : List String, s.length ≤ 50 →
      (ids.foldl executeDedup s).length ≤ 50 := by
  induction ids with
  | nil => intro s h; exact h
  | cons o t ih => intro s h; exact ih _ (executeDedup_length_le s o h)

/-! ## Claims -/

/-- C1: the penalty score of a node is Infinity when it is not connected
or no stats snapshot has been observed; otherwise it is the weighted sum
of active players (weight 1), playing players (weight 2), CPU lavalink
load over cores × 100 when the core count is positive, the memory term
`(ratio − 0.8) × 500` only above 80% utilisation, and frame deficit × 2
plus nulled frames when frame stats are present. -/
theorem claim_C1 (n : Node) :
    (n.isConnected = false ∨ n.stats = none → n.getPenalty = ⊤) ∧
    (∀ s : NodeStats, n.isConnected = true → n.stats = some s →
      n.getPenalty =
        ((s.players + s.playingPlayers * 2
          + (if s.cpu.cores > 0 then s.cpu.lavalinkLoad / s.cpu.cores * 100 else 0)
          + (if s.memory.used / s.memory.allocated > 4/5 then
               (s.memory.used / s.memory.allocated - 4/5) * 500 else 0)
          + (match s.frameStats with
             | some f => f.deficit * 2 + f.nulled
             | none => 0) : ℚ) : WithTop ℚ)) := by
  constructor
  · intro h
    exact (getPenalty_eq_top_iff n).mpr h
  · intro s hc hs
    simp only [Node.getPenalty, hs, hc, Bool.not_true, Bool.false_eq_true, if_false]
    rw [WithTop.coe_eq_coe]
    rcases hf : s.frameStats with _ | f <;> simp only [penaltyBody, hf] <;>
      split_ifs <;> ring

/-- C10: the `total` field of the detailed penalty breakdown agrees with
the scalar penalty function in every node state — `⊤` together, and the
same weighted sum otherwise. -/
theorem claim_C10 (n : Node) : (n.getPenaltyDetails).total = n.getPenalty := by
  rcases hs : n.stats with _ | s
  · simp [Node.getPenalty, Node.getPenaltyDetails, hs]
  · by_cases hc : n.isConnected
    · simp only [Node.getPenalty, Node.getPenaltyDetails, hs, hc, Bool.not_true,
        Bool.false_eq_true, if_false]
      rw [WithTop.coe_eq_coe]
      rcases hf : s.frameStats with _ | f <;>
        simp only [penaltyBody, hf] <;> split_ifs <;> ring
    · have hc' : n.isConnected = false := Bool.eq_false_iff.mpr hc
      simp [Node.getPenalty, Node.getPenaltyDetails, hs, hc']

/-- C1 witness: the connected rich node realises the weighted-sum clause
(with value 85) and the disconnected node realises the Infinity clause. -/
theorem claim_C1_witness :
    nodeRich.getPenalty =
      ((statsRich.players + statsRich.playingPlayers * 2
        + (if statsRich.cpu.cores > 0 then
             statsRich.cpu.lavalinkLoad / statsRich.cpu.cores * 100 else 0)
        + (if statsRich.memory.used / statsRich.memory.allocated > 4/5 then
             (statsRich.memory.used / statsRich.memory.allocated - 4/5) * 500 else 0)
        + (match statsRich.frameStats with
           | some f => f.deficit * 2 + f.nulled
           | none => 0) : ℚ) : WithTop ℚ) ∧
    nodeDown.getPenalty = ⊤ ∧
    nodeRich.getPenalty = ((85 : ℚ) : WithTop ℚ) := by
  exact ⟨(claim_C1 nodeRich).2 statsRich rfl rfl, (claim_C1 nodeDown).1 (Or.inl rfl),
    getPenalty_nodeRich⟩

/-- C2 counterexample: with two connected stats-less nodes, selection
returns the first — a stats-less node — although a connected alternative
exists, so the final clause of the claim is false as stated. -/
theorem claim_C2_counterexample :
    getBestNode [nodeNoStatsA, nodeNoStatsB] none = some nodeNoStatsA ∧
    nodeNoStatsA.stats = none ∧
    nodeNoStatsB.isConnected = true ∧
    nodeNoStatsA ≠ nodeNoStatsB := by decide

/-- C2 (amended): on any candidate set with a connected member, selection
succeeds and returns a connected node of minimum penalty, ties resolved in
favour of the first-encountered node in insertion order; a disconnected
node is never returned, and a stats-less node is returned only when every
connected candidate is stats-less. -/
theorem claim_C2 :
    (∀ ns : List Node, connectedNodes ns ≠ [] → (getBestNode ns none).isSome = true) ∧
    (∀ (ns : List Node) (b : Node), getBestNode ns none = some b →
      b ∈ connectedNodes ns ∧
      (∀ n ∈ connectedNodes ns, b.getPenalty ≤ n.getPenalty) ∧
      (∃ l₁ l₂, connectedNodes ns = l₁ ++ b :: l₂ ∧
        ∀ n ∈ l₁, b.getPenalty < n.getPenalty) ∧
      (b.stats = none → ∀ n ∈ ns, n.isConnected = true → n.stats = none)) := by
  constructor
  · intro ns hne
    rcases hc : connectedNodes ns with _ | ⟨hd, t⟩
    · exact absurd hc hne
    · simp only [getBestNode, hc]
      simp [selectBestFromNodes]
  · intro ns b h
    have hform : getBestNode ns none =
        (if (connectedNodes ns).length = 0 then none
         else selectBestFromNodes Node.getPenalty (connectedNodes ns)) := rfl
    rw [hform] at h
    by_cases hemp : (connectedNodes ns).length = 0
    · rw [if_pos hemp] at h; cases h
    · rw [if_neg hemp] at h
      obtain ⟨hmem, hle, hdec⟩ := selectBest_spec _ _ _ h
      refine ⟨hmem, hle, hdec, ?_⟩
      intro hbs n hn hconn
      have hbtop : b.getPenalty = ⊤ := (getPenalty_eq_top_iff b).mpr (Or.inr hbs)
      have hn' : n ∈ connectedNodes ns := List.mem_filter.mpr ⟨hn, hconn⟩
      have hge : (⊤ : WithTop ℚ) ≤ n.getPenalty := hbtop ▸ hle n hn'
      have hntop : n.getPenalty = ⊤ := top_le_iff.mp hge
      rcases (getPenalty_eq_top_iff n).mp hntop with h1 | h2
      · rw [hconn] at h1; cases h1
      · exact h2

/-- C2 witness: the `[5, 2, 8]` scenario — selection over three connected
nodes with penalties 5, 2 and 8 returns the penalty-2 node. -/
theorem claim_C2_witness :
    getBestNode [nodeP5, nodeP2, nodeP8] none = some nodeP2 ∧
    nodeP2 ∈ connectedNodes [nodeP5, nodeP2, nodeP8] ∧
    (∀ n ∈ connectedNodes [nodeP5, nodeP2, nodeP8],
      nodeP2.getPenalty ≤ n.getPenalty) ∧
    (getBestNode [nodeP5, nodeP2, nodeP8] none).isSome = true := by
  have e5 : nodeP5.getPenalty = ((5 : ℚ) : WithTop ℚ) := by
    rw [show nodeP5 = connNode "five" none (some (demoStats 5 0)) from rfl,
      getPenalty_demoNode]
    norm_num
  have e2 : nodeP2.getPenalty = ((2 : ℚ) : WithTop ℚ) := by
    rw [show nodeP2 = connNode "two" none (some (demoStats 2 0)) from rfl,
      getPenalty_demoNode]
    norm_num
  have e8 : nodeP8.getPenalty = ((8 : ℚ) : WithTop ℚ) := by
    rw [show nodeP8 = connNode "eight" none (some (demoStats 8 0)) from rfl,
      getPenalty_demoNode]
    norm_num
  have h25 : nodeP2.getPenalty < nodeP5.getPenalty := by
    rw [e2, e5]; exact WithTop.coe_lt_coe.mpr (by norm_num)
  have h82 : ¬nodeP8.getPenalty < nodeP2.getPenalty := by
    rw [e8, e2]
    intro hlt
    exact absurd (WithTop.coe_lt_coe.mp hlt) (by norm_num)
  have hsel : getBestNode [nodeP5, nodeP2, nodeP8] none = some nodeP2 := by
    rw [show getBestNode [nodeP5, nodeP2, nodeP8] none =
        some (selectLoop Node.getPenalty nodeP5 nodeP5.getPenalty [nodeP2, nodeP8])
      from rfl]
    simp only [selectLoop, if_pos h25, if_neg h82]
  have h := claim_C2.2 [nodeP5, nodeP2, nodeP8] nodeP2 hsel
  exact ⟨hsel, h.1, h.2.1, claim_C2.1 [nodeP5, nodeP2, nodeP8] (by decide)⟩

/-- C3: with a region hint, selection fails exactly when the connected set
is empty; otherwise it is made from the fuzzily region-matching connected
subset when that is non-empty and from the full connected set otherwise.
The regional subset is exactly the connected nodes whose configured region
token matches the hint, matching is symmetric (substring in either
direction), and region normalisation ignores the `-`/`_` separators. -/
theorem claim_C3 :
    (∀ (ns : List Node) (hint : String),
      (getBestNode ns (some hint) = none ↔ connectedNodes ns = []) ∧
      (regionalNodes ns hint ≠ [] →
        getBestNode ns (some hint) =
          selectBestFromNodes Node.getPenalty (regionalNodes ns hint)) ∧
      (connectedNodes ns ≠ [] → regionalNodes ns hint = [] →
        getBestNode ns (some hint) =
          selectBestFromNodes Node.getPenalty (connectedNodes ns)) ∧
      (∀ n : Node, n ∈ regionalNodes ns hint ↔
        (n ∈ connectedNodes ns ∧
          ∃ r, n.options.region = some r ∧ matchesRegion r hint = true))) ∧
    (∀ a b : String, matchesRegion a b = matchesRegion b a) ∧
    (∀ a b : String,
      normalizeRegion (a ++ "-" ++ b) = normalizeRegion (a ++ b) ∧
      normalizeRegion (a ++ "_" ++ b) = normalizeRegion (a ++ b)) := by
  refine ⟨?_, ?_, ?_⟩
  · intro ns hint
    refine ⟨?_, ?_, ?_, ?_⟩
    · rw [getBestNode_some_form]
      constructor
      · intro h
        by_cases hemp : (connectedNodes ns).length = 0
        · exact List.length_eq_zero.mp hemp
        · rw [if_neg hemp] at h
          by_cases hr : (regionalNodes ns hint).length > 0
          · rw [if_pos hr] at h
            obtain ⟨b, hb⟩ := selectBest_isSome Node.getPenalty (regionalNodes ns hint)
              (by intro hnil; rw [hnil] at hr; simp at hr)
            rw [hb] at h; cases h
          · rw [if_neg hr] at h
            obtain ⟨b, hb⟩ := selectBest_isSome Node.getPenalty (connectedNodes ns)
              (fun hnil => hemp (by rw [hnil]; rfl))
            rw [hb] at h; cases h
      · intro h
        rw [if_pos (by rw [h]; rfl)]
    · intro hne
      have hconn : connectedNodes ns ≠ [] := by
        intro hc
        exact hne (regionalNodes_of_connected_nil ns hint hc)
      rw [getBestNode_some_form,
        if_neg (fun h0 => hconn (List.length_eq_zero.mp h0)),
        if_pos (List.length_pos.mpr hne)]
    · intro hconn hreg
      rw [getBestNode_some_form,
        if_neg (fun h0 => hconn (List.length_eq_zero.mp h0)),
        if_neg (by rw [hreg]; simp)]
    · intro n
      constructor
      · intro hn
        have hfm := List.mem_filter.mp hn
        refine ⟨hfm.1, ?_⟩
        have hm := hfm.2
        unfold nodeRegionMatches at hm
        rcases hr : n.options.region with _ | r
        · rw [hr] at hm; cases hm
        · rw [hr] at hm
          exact ⟨r, rfl, hm⟩
      · rintro ⟨hmem, r, hr, hmatch⟩
        refine List.mem_filter.mpr ⟨hmem, ?_⟩
        unfold nodeRegionMatches
        rw [hr]
        exact hmatch
  · intro a b
    unfold matchesRegion
    exact Bool.or_comm _ _
  · intro a b
    have hdash : normalizeRegion "-" = [] := by decide
    have hus : normalizeRegion "_" = [] := by decide
    constructor
    · rw [show a ++ "-" ++ b = (a ++ "-") ++ b from rfl, normalizeRegion_append,
        normalizeRegion_append a "-", hdash, normalizeRegion_append a b,
        List.append_nil]
    · rw [show a ++ "_" ++ b = (a ++ "_") ++ b from rfl, normalizeRegion_append,
        normalizeRegion_append a "_", hus, normalizeRegion_append a b,
        List.append_nil]

/-- C3 witness: with candidates in `eu-central`, `us-west` and `US_WEST`
and hint `uswest`, the regional subset is the two us nodes and selection
picks the cheaper of them. -/
theorem claim_C3_witness :
    regionalNodes [nodeEU, nodeUSW, nodeUSW2] "uswest" = [nodeUSW, nodeUSW2] ∧
    getBestNode [nodeEU, nodeUSW, nodeUSW2] (some "uswest") =
      selectBestFromNodes Node.getPenalty [nodeUSW, nodeUSW2] ∧
    getBestNode [nodeEU, nodeUSW, nodeUSW2] (some "uswest") = some nodeUSW2 := by
  have hreg : regionalNodes [nodeEU, nodeUSW, nodeUSW2] "uswest" =
      [nodeUSW, nodeUSW2] := by decide
  have h := (claim_C3.1 [nodeEU, nodeUSW, nodeUSW2] "uswest").2.1
    (by rw [hreg]; simp)
  have eU : nodeUSW.getPenalty = ((1 : ℚ) : WithTop ℚ) := by
    rw [show nodeUSW = connNode "usw" (some "us-west") (some (demoStats 1 0)) from rfl,
      getPenalty_demoNode]
    norm_num
  have eU2 : nodeUSW2.getPenalty = ((0 : ℚ) : WithTop ℚ) := by
    rw [show nodeUSW2 = connNode "usw2" (some "US_WEST") (some (demoStats 0 0)) from rfl,
      getPenalty_demoNode]
    norm_num
  have hlt : nodeUSW2.getPenalty < nodeUSW.getPenalty := by
    rw [eU2, eU]; exact WithTop.coe_lt_coe.mpr (by norm_num)
  refine ⟨hreg, by rw [h, hreg], ?_⟩
  rw [h, hreg]
  rw [show selectBestFromNodes Node.getPenalty [nodeUSW, nodeUSW2] =
      some (selectLoop Node.getPenalty nodeUSW nodeUSW.getPenalty [nodeUSW2]) from rfl]
  simp only [selectLoop, if_pos hlt]

/-- C4: adding a node with an existing name fails with the typed duplicate
error and leaves the registry untouched, and after any failed add — name
collision, missing init, or a failed connection attempt (which deletes the
half-added entry) — the registry is exactly as before the call. -/
theorem claim_C4 (st : ManagerState) (options : NodeOptions) (connectOk : Bool) :
    (hasNode st options.name = true →
      addNode st options connectOk = (st, Except.error AddNodeError.duplicateName)) ∧
    (∀ e : AddNodeError, (addNode st options connectOk).2 = Except.error e →
      (addNode st options connectOk).1 = st) := by
  constructor
  · intro hdup
    unfold addNode
    rw [if_pos hdup]
  · intro e he
    obtain ⟨nodes, cid⟩ := st
    by_cases hdup : hasNode ⟨nodes, cid⟩ options.name
    · unfold addNode
      rw [if_pos hdup]
    · have hfresh := hasNode_false ⟨nodes, cid⟩ options.name (Bool.eq_false_iff.mpr hdup)
      unfold addNode at he ⊢
      rw [if_neg hdup] at he ⊢
      rcases cid with _ | cid
      · rfl
      · cases connectOk with
        | true => simp at he
        | false =>
          show ({ nodes := mapDelete options.name (nodes ++ [(options.name, mkNode options)]),
                  clientId := some cid } : ManagerState) = ⟨nodes, some cid⟩
          rw [mapDelete_append_fresh nodes options.name (mkNode options) hfresh]

/-- C4 witness: a duplicate add and a failed-connect add on the demo
registry both leave it unchanged. -/
theorem claim_C4_witness :
    hasNode mgrInit "down" = true ∧
    addNode mgrInit (demoOptions "down" none) false =
      (mgrInit, Except.error AddNodeError.duplicateName) ∧
    (addNode mgrInit (demoOptions "fresh" none) false).1 = mgrInit := by
  refine ⟨rfl, (claim_C4 mgrInit (demoOptions "down" none) false).1 rfl, ?_⟩
  exact (claim_C4 mgrInit (demoOptions "fresh" none) false).2
    AddNodeError.connectFailed rfl

/-- C5: the jittered exponential reconnect delays strictly increase while
the doubled base delay stays within the cap (for any ±20% jitter draws),
and the backoff counter is reset to zero — so the next delay is again the
base delay — by a successful socket open. -/
theorem claim_C5 :
    (∀ (b : ExponentialBackoff) (j₁ j₂ : ℚ),
      0 < b.baseDelay → 4/5 ≤ j₁ → j₁ ≤ 6/5 → 4/5 ≤ j₂ → j₂ ≤ 6/5 →
      b.baseDelay * 2 ^ (b.attempt + 1) ≤ b.maxDelay →
      b.delayWithJitter j₁ < b.next.delayWithJitter j₂) ∧
    (∀ b : ExponentialBackoff, b.reset.attempt = 0) ∧
    (∀ b : ExponentialBackoff, b.baseDelay ≤ b.maxDelay →
      b.reset.rawDelay = b.baseDelay) ∧
    (∀ (n : WsNode) (now : Nat), (onOpenStep n now).backoffAttempt = 0) := by
  refine ⟨?_, fun b => rfl, ?_, fun n now => rfl⟩
  · intro b j₁ j₂ hb h1 h2 h3 h4 hcap
    show min (b.baseDelay * 2 ^ b.attempt) b.maxDelay * j₁ <
      min (b.baseDelay * 2 ^ (b.attempt + 1)) b.maxDelay * j₂
    have hle : b.baseDelay * 2 ^ b.attempt ≤ b.baseDelay * 2 ^ (b.attempt + 1) := by
      apply mul_le_mul_of_nonneg_left _ (le_of_lt hb)
      exact pow_le_pow_right₀ (by norm_num) (Nat.le_succ _)
    rw [min_eq_left (le_trans hle hcap), min_eq_left hcap]
    have hD : 0 < b.baseDelay * 2 ^ b.attempt :=
      mul_pos hb (pow_pos (by norm_num) _)
    have hj : j₁ < 2 * j₂ := by linarith
    calc b.baseDelay * 2 ^ b.attempt * j₁
        < b.baseDelay * 2 ^ b.attempt * (2 * j₂) := mul_lt_mul_of_pos_left hj hD
      _ = b.baseDelay * 2 ^ (b.attempt + 1) * j₂ := by ring
  · intro b hbm
    show min (b.baseDelay * 2 ^ (0 : Nat)) b.maxDelay = b.baseDelay
    rw [pow_zero, mul_one]
    exact min_eq_left hbm

/-- C5 witness: the demo backoff (base 5000, cap 60000) with unit jitter
draws a strictly larger second delay, and resets return to attempt 0. -/
theorem claim_C5_witness :
    (mkNodeBackoff (demoOptions "down" none)).delayWithJitter 1 <
      (mkNodeBackoff (demoOptions "down" none)).next.delayWithJitter 1 ∧
    (mkNodeBackoff (demoOptions "down" none)).reset.attempt = 0 ∧
    (mkNodeBackoff (demoOptions "down" none)).reset.rawDelay =
      (mkNodeBackoff (demoOptions "down" none)).baseDelay := by
  refine ⟨?_, claim_C5.2.1 _, ?_⟩
  · exact claim_C5.1 (mkNodeBackoff (demoOptions "down" none)) 1 1
      (by norm_num [mkNodeBackoff, demoOptions]) (by norm_num) (by norm_num)
      (by norm_num) (by norm_num) (by norm_num [mkNodeBackoff, demoOptions])
  · exact claim_C5.2.2.1 _ (by norm_num [mkNodeBackoff, demoOptions])

/-- C6: while the heartbeat monitor runs, a check tick finding no liveness
traffic for more than the 60-second timeout closes the socket with the
non-normal code 4000, which (reconnection being enabled and attempts not
exhausted, as guaranteed by the reset on open) schedules a reconnect; each
player-update event refreshes the liveness timestamp; the monitor checks
every 15 seconds. -/
theorem claim_C6 :
    (∀ (n : WsNode) (now : Nat),
      n.heartbeatActive = true →
      now - n.lastHeartbeat > heartbeatTimeoutMs →
      n.maxReconnectAttempts ≠ 0 →
      n.backoffAttempt < n.maxReconnectAttempts →
      (heartbeatTickStep n now).wsOpen = false ∧
      (heartbeatTickStep n now).closeCode = some 4000 ∧
      (4000 : Nat) ≠ 1000 ∧
      (heartbeatTickStep n now).reconnectScheduled = true ∧
      (heartbeatTickStep n now).state = NodeState.RECONNECTING) ∧
    (∀ (n : WsNode) (now : Nat), (playerUpdateStep n now).lastHeartbeat = now) ∧
    heartbeatIntervalMs = 15000 ∧ heartbeatTimeoutMs = 60000 := by
  refine ⟨?_, fun n now => rfl, rfl, rfl⟩
  intro n now hact hover hmax hatt
  have htick : heartbeatTickStep n now = onCloseStep n 4000 := by
    unfold heartbeatTickStep
    rw [if_pos ⟨hact, hover⟩]
  have hclose : onCloseStep n 4000 =
      scheduleReconnectStep
        { n with state := NodeState.DISCONNECTED, wsOpen := false,
                 heartbeatActive := false, closeCode := some 4000 } := by
    unfold onCloseStep
    rw [if_pos ⟨by norm_num, hmax⟩]
  have hsched : scheduleReconnectStep
      { n with state := NodeState.DISCONNECTED, wsOpen := false,
               heartbeatActive := false, closeCode := some 4000 } =
      { n with state := NodeState.RECONNECTING, wsOpen := false,
               heartbeatActive := false, closeCode := some 4000,
               reconnectScheduled := true,
               backoffAttempt := n.backoffAttempt + 1 } := by
    unfold scheduleReconnectStep
    rw [if_neg (not_le.mpr hatt)]
  rw [htick, hclose, hsched]
  exact ⟨rfl, rfl, by norm_num, rfl, rfl⟩

/-- C6 witness: the demo connected state, last refreshed at time 0, is
closed with code 4000 and scheduled for reconnection by a check at time
60001 ms. -/
theorem claim_C6_witness :
    (heartbeatTickStep wsDemo 60001).wsOpen = false ∧
    (heartbeatTickStep wsDemo 60001).closeCode = some 4000 ∧
    (4000 : Nat) ≠ 1000 ∧
    (heartbeatTickStep wsDemo 60001).reconnectScheduled = true ∧
    (heartbeatTickStep wsDemo 60001).state = NodeState.RECONNECTING ∧
    (playerUpdateStep wsDemo 777).lastHeartbeat = 777 := by
  have h := claim_C6.1 wsDemo 60001 rfl (by decide) (by decide) (by decide)
  exact ⟨h.1, h.2.1, h.2.2.1, h.2.2.2.1, h.2.2.2.2, claim_C6.2.1 wsDemo 777⟩

/-- C7: a strategy exception (and a disconnected node) is reported to the
autoplay caller as the boolean `false`, never propagated; and when the
de-duplication filter empties a non-empty candidate set, the strategy
falls back to the unfiltered set, succeeds, and picks a track from it. -/
theorem claim_C7 :
    (∀ e : String, executeAutoplay true (Except.error e) = false) ∧
    (∀ r : Except String Bool, executeAutoplay false r = false) ∧
    (∀ (played : List String) (prevId : String) (r : LoadResult) (pick : Nat),
      r ≠ LoadResult.error → r ≠ LoadResult.empty →
      filterPlayed played (resultTracks r) = [] →
      resultTracks r ≠ [] →
      (handleYouTube played (some prevId) r pick).1 = true ∧
      ∃ t, (handleYouTube played (some prevId) r pick).2 = some t ∧
        t ∈ resultTracks r) := by
  refine ⟨fun e => rfl, fun r => rfl, ?_⟩
  intro played prevId r pick herr hemp hfilt hne
  obtain ⟨t, ht, htm⟩ := pick_mem (resultTracks r) pick hne
  cases r with
  | error => exact absurd rfl herr
  | empty => exact absurd rfl hemp
  | track tr =>
    simp only [resultTracks] at hfilt hne ht htm
    simp only [handleYouTube, resultTracks, hfilt, List.length_nil, if_pos rfl]
    rw [if_neg (by simp)]
    exact ⟨rfl, t, ht, htm⟩
  | playlist ts =>
    simp only [resultTracks] at hfilt hne ht htm
    simp only [handleYouTube, resultTracks, hfilt, List.length_nil, if_pos rfl]
    rw [if_neg (by simpa using hne)]
    exact ⟨rfl, t, ht, htm⟩
  | search ts =>
    simp only [resultTracks] at hfilt hne ht htm
    simp only [handleYouTube, resultTracks, hfilt, List.length_nil, if_pos rfl]
    rw [if_neg (by simpa using hne)]
    exact ⟨rfl, t, ht, htm⟩

/-- C7 witness: with both candidates already played, the strategy resets
to the unfiltered pair and still succeeds; an exception yields `false`. -/
theorem claim_C7_witness :
    filterPlayed ["A", "B"] (resultTracks (LoadResult.search [trackA, trackB])) = [] ∧
    (handleYouTube ["A", "B"] (some "A") (LoadResult.search [trackA, trackB]) 0).1 = true ∧
    executeAutoplay true (Except.error "boom") = false := by
  have hfilt : filterPlayed ["A", "B"]
      (resultTracks (LoadResult.search [trackA, trackB])) = [] := by decide
  have h := claim_C7.2.2 ["A", "B"] "A" (LoadResult.search [trackA, trackB]) 0
    (by decide) (by decide) hfilt (by decide)
  exact ⟨hfilt, h.1, claim_C7.1 "boom"⟩

/-- C8: the autoplay de-duplication set never exceeds 50 entries after any
sequence of executions, and an insertion at capacity evicts the oldest
(first-inserted) identifier. -/
theorem claim_C8 :
    (∀ ids : List (Option String),
      (ids.foldl executeDedup []).length ≤ 50) ∧
    (∀ (s : List String) (id : String), s.length = 50 → s.contains id = false →
      addIdentifier s id = s.tail ++ [id]) := by
  constructor
  · intro ids
    exact foldl_executeDedup_le ids [] (by norm_num)
  · intro s id hlen hfree
    unfold addIdentifier maxHistorySize
    rw [hfree]
    simp only [Bool.false_eq_true, if_false]
    rw [if_pos (by simp [List.length_append, hlen])]
    cases s with
    | nil => cases hlen
    | cons a t => rfl

/-- C8 witness: inserting a fresh identifier into the full 50-entry set
evicts the head, and a 60-step execution sequence stays within 50. -/
theorem claim_C8_witness :
    fiftyIds.length = 50 ∧ fiftyIds.contains "x" = false ∧
    addIdentifier fiftyIds "x" = fiftyIds.tail ++ ["x"] ∧
    ((List.replicate 60 (some "b") : List (Option String)).foldl
      executeDedup []).length ≤ 50 := by
  refine ⟨by decide, by decide, ?_, claim_C8.1 _⟩
  exact claim_C8.2 fiftyIds "x" (by decide) (by decide)

/-- C9: in queue-loop mode a track ending with reason `finished` is
appended to the queue tail before the next track is dequeued from the
head; for any other end reason the queue is left untouched and no track is
restarted. -/
theorem claim_C9 :
    (∀ (st : PlayerSt) (a : Track) (auto : Option Track),
      st.track = some a → st.loopMode = LoopMode.queue →
      (handleTrackEnd st TrackEndReason.finished auto).queue =
        (st.queue ++ [a]).tail ∧
      (handleTrackEnd st TrackEndReason.finished auto).track =
        (st.queue ++ [a]).head?) ∧
    (∀ (st : PlayerSt) (r : TrackEndReason) (auto : Option Track),
      r ≠ TrackEndReason.finished →
      (handleTrackEnd st r auto).queue = st.queue ∧
      (handleTrackEnd st r auto).track = none) := by
  constructor
  · intro st a auto htr hloop
    obtain ⟨tr, q, hist, prevT, lm, ap, pos⟩ := st
    simp only at htr hloop
    subst htr
    subst hloop
    simp [handleTrackEnd]
  · intro st r auto hr
    obtain ⟨tr, q, hist, prevT, lm, ap, pos⟩ := st
    rcases tr with _ | t <;> simp [handleTrackEnd, hr]

/-- C9 witness: queue `[B, C]` with current `A`, loop `queue`, reason
`finished` yields queue `[C, A]` with `B` playing; reason `stopped`
leaves the queue `[B, C]` untouched. -/
theorem claim_C9_witness :
    (handleTrackEnd stABC TrackEndReason.finished none).queue = [trackC, trackA] ∧
    (handleTrackEnd stABC TrackEndReason.finished none).track = some trackB ∧
    (handleTrackEnd stABC TrackEndReason.stopped none).queue = [trackB, trackC] ∧
    (handleTrackEnd stABC TrackEndReason.stopped none).track = none := by
  have h1 := claim_C9.1 stABC trackA none rfl rfl
  have h2 := claim_C9.2 stABC TrackEndReason.stopped none (by decide)
  exact ⟨h1.1, h1.2, h2.1, h2.2⟩

end Lavaflow
